import Mathlib

/-!
Verification of the `overseer` status-aggregation engine
(`src/overseer/models.py`) against its natural-language specification.

Shallow embedding conventions:
* Django `SmallIntegerField` status values are `Int` (the field is a signed
  integer; the enumerated severity domain is {0,1,2}).
* Timestamps (`DateTimeField`) are `Nat`: only their total order matters.
* Nullable text fields (`TextField(null=True)`) are `Option String`;
  Python truthiness `if self.message:` is `truthy` below (`None` and the
  empty string are falsy).
* Django queries are evaluated against explicit lists standing for the
  relevant table rows; `.update(...)`/`setattr` read-modify-write pairs
  collapse to functional record updates, which is exact under the serial
  execution model the spec fixes (one triggering write at a time).
-/

namespace Overseer

/-- Python truthiness of a nullable string field: `None` and `''` are falsy. -/
def truthy : Option String → Bool
  | none => false
  | some s => s != ""

/-- Python `str.startswith(pre)`, used on m2m_changed `action` values. -/
def startswith (s pre : String) : Bool :=
  pre.data.isPrefixOf s.data

/-- Embeds `EventBase.get_message` (models.py lines 91-100): the explicit message if
truthy, otherwise a canned string chosen by `status`, otherwise `''`. -/
def get_message (message : Option String) (status : Int) : String :=
  if truthy message then message.getD ""
  else if status = 0 then "Service is operating as expected."
  else if status = 1 then "Experiencing some issues. Services mostly operational."
  else if status = 2 then "Service is unavailable."
  else ""

/-- One `EventUpdate` row: pk, owning event fk, `status`, `message`,
`date_created`. Immutable once appended. -/
structure UpdateRec where
  pk : Nat
  event : Nat
  status : Int
  message : Option String
  date_created : Nat
  deriving Repr, DecidableEq

/-- The aggregate fields of one `Event` row. -/
structure EventState where
  pk : Nat
  status : Int
  peak_status : Int
  description : Option String
  message : Option String
  date_updated : Nat
  deriving Repr, DecidableEq

/-- A fresh `Event` row: `status` and `peak_status` default to 0,
`description`/`message` to NULL, `date_updated` to creation time. -/
def newEvent (pk : Nat) (now : Nat) : EventState :=
  { pk := pk, status := 0, peak_status := 0, description := none,
    message := none, date_updated := now }

/-- Embeds `order_by` on descending `date_created`: stable insertion sort, newest first. -/
def sortByDateDesc : List UpdateRec → List UpdateRec
  | [] => []
  | u :: us => insertDesc u (sortByDateDesc us)
where
  insertDesc (u : UpdateRec) : List UpdateRec → List UpdateRec
    | [] => [u]
    | v :: vs =>
      if v.date_created ≥ u.date_created then v :: insertDesc u vs
      else u :: v :: vs

/-- Embeds `Event.handle_update_save` (models.py lines 129-160), fired on every save
of an `EventUpdate`. `updates` is the update table after the save (all rows,
any event). A freshly created update is unconditionally `is_latest`; for a
re-save, the code takes the newest row for the event and compares that row's
*event* foreign key against `event.pk` (`values_list('event', flat=True)`).
When latest, it copies `status`/`message`, sets `date_updated` to the
update's `date_created`, fills an unset (falsy) `description`, and raises
`peak_status` when it was falsy (= 0) or below the update's status. -/
def handle_update_save (ev : EventState) (updates : List UpdateRec)
    (inst : UpdateRec) (created : Bool) : EventState :=
  let is_latest : Bool :=
    if created then true
    else
      match (sortByDateDesc (updates.filter (fun u => u.event == ev.pk))).head? with
      | some u0 => u0.event == ev.pk
      | none => false
  if is_latest then
    let ev1 := { ev with status := inst.status,
                         date_updated := inst.date_created,
                         message := inst.message }
    let ev2 := if truthy ev.description then ev1
               else { ev1 with description := inst.message }
    if ev.peak_status == 0 || ev.peak_status < inst.status then
      { ev2 with peak_status := inst.status }
    else ev2
  else ev

/-- Embeds `appendUpdate` (spec §4.2): persist a new immutable `EventUpdate` row and
fire `handle_update_save` synchronously with `created = True`. -/
def appendUpdate (ev : EventState) (log : List UpdateRec) (u : UpdateRec) :
    EventState × List UpdateRec :=
  (handle_update_save ev (log ++ [u]) u true, log ++ [u])

/-- A serial sequence of appends to one event. -/
def runAppends (st : EventState × List UpdateRec) (us : List UpdateRec) :
    EventState × List UpdateRec :=
  us.foldl (fun st u => appendUpdate st.1 st.2 u) st

/-- One `Service` row: pk plus the derived fields `status`, `date_updated`. -/
structure ServiceRec where
  pk : Nat
  status : Int
  date_updated : Nat
  deriving Repr, DecidableEq

/-- The aggregate view of one `Event` row that the Service Aggregator reads. -/
structure EventRec where
  pk : Nat
  status : Int
  date_updated : Nat
  deriving Repr, DecidableEq

/-- Embeds the query `Event.objects.filter(services=self, status=st).exclude(pk=evPk).exists()`
over the list of events currently linked to the service. -/
def otherLinkedAt (linked : List EventRec) (evPk : Nat) (st : Int) : Bool :=
  linked.any (fun e => e.status == st && e.pk != evPk)

/-- Embeds `Service.update_from_event` (models.py lines 63-85): raise `date_updated`
when the event's is newer; raise `status` when the event is worse; on a less
severe event lower `status` only when no *other* linked event still has the
current status. `linked` is the list of events linked to the service at call
time. The guarded `update_qs.filter(...).update(...)` writes coincide with
the in-memory assignments under serial execution. -/
def update_from_event (svc : ServiceRec) (linked : List EventRec)
    (ev : EventRec) : ServiceRec :=
  let svc1 := if ev.date_updated > svc.date_updated then
                { svc with date_updated := ev.date_updated }
              else svc
  if ev.status > svc1.status then
    { svc1 with status := ev.status }
  else if ev.status < svc1.status then
    if !(otherLinkedAt linked ev.pk svc1.status) then
      { svc1 with status := ev.status }
    else svc1
  else svc1

/-- The persistent state the Service Aggregator touches: the service table,
the event table, and the service↔event m2m link table. -/
structure World where
  services : List ServiceRec
  events : List EventRec
  links : List (Nat × Nat)
  deriving Repr, DecidableEq

/-- Embeds `Event.objects.filter(services=service)`: events currently linked. -/
def linkedEvents (w : World) (spk : Nat) : List EventRec :=
  w.events.filter (fun e => w.links.contains (spk, e.pk))

/-- Embeds `Service.objects.get(pk=spk)` as a partial lookup. -/
def findService (w : World) (spk : Nat) : Option ServiceRec :=
  w.services.find? (fun s => s.pk == spk)

/-- Embeds `Event.objects.get(pk=epk)` as a partial lookup. -/
def findEvent (w : World) (epk : Nat) : Option EventRec :=
  w.events.find? (fun e => e.pk == epk)

/-- Run `service.update_from_event(ev)` for the service row with pk `spk`
(no-op when no such row exists), persisting the result. -/
def applyAggregate (w : World) (spk : Nat) (ev : EventRec) : World :=
  { w with services :=
      w.services.map (fun s =>
        if s.pk == spk then update_from_event s (linkedEvents w spk) ev
        else s) }

/-- Embeds `Service.handle_event_m2m_save` (models.py lines 44-56), the receiver of
`m2m_changed` on `Event.services.through`. Returns early unless the `action`
is a `post_` phase and `pk_set` is truthy (non-`None`, non-empty). In the
forward direction (`model is Service`) the instance is an event and `pk_set`
holds service pks; in the reverse direction the instance is a service and
`pk_set` holds event pks. Either way each affected pair runs
`service.update_from_event(event)`; pks with no matching row are skipped as
Django's `filter(pk__in=...)` does. -/
def handle_event_m2m_save (w : World) (action : String) (forward : Bool)
    (instPk : Nat) (pk_set : Option (List Nat)) : World :=
  if !(startswith action "post_") then w
  else if (pk_set.getD []).isEmpty then w
  else if forward then
    (pk_set.getD []).foldl (fun w spk =>
      match findEvent w instPk with
      | some ev => applyAggregate w spk ev
      | none => w) w
  else
    (pk_set.getD []).foldl (fun w epk =>
      match findEvent w epk with
      | some ev => applyAggregate w instPk ev
      | none => w) w

/-- Embeds `event.services.add(service)`: the `pre_add` signal fires on the old
state, the link row is inserted, then the `post_add` signal fires. -/
def linkEvent (w : World) (spk epk : Nat) : World :=
  let wa := handle_event_m2m_save w "pre_add" true epk (some [spk])
  let wb := { wa with links := wa.links ++ [(spk, epk)] }
  handle_event_m2m_save wb "post_add" true epk (some [spk])

/-- Embeds `event.services.remove(service)`: on `pre_remove` nothing happens on the old state, link row
deleted, then `post_remove`. -/
def unlinkEvent (w : World) (spk epk : Nat) : World :=
  let wa := handle_event_m2m_save w "pre_remove" true epk (some [spk])
  let wb := { wa with links := wa.links.filter (fun l => l != (spk, epk)) }
  handle_event_m2m_save wb "post_remove" true epk (some [spk])

/-- The event-state effect of one append (`created = True`), as a single
record update. Derived from `handle_update_save`, not a replacement for it. -/
def applyU (ev : EventState) (u : UpdateRec) : EventState :=
  { pk := ev.pk
    status := u.status
    peak_status :=
      if ev.peak_status == 0 || ev.peak_status < u.status then u.status
      else ev.peak_status
    description :=
      if truthy ev.description then ev.description else u.message
    message := u.message
    date_updated := u.date_created }

/-- Computes `max(status of every update appended so far, 0)`; with valid severities
(all `≥ 0`) this is the maximum appended status. -/
def maxStatuses (us : List UpdateRec) : Int :=
  (us.map (fun u => u.status)).foldl max 0

/-- C1 failing input, first append: status Unavailable at time 2. -/
def cu1 : UpdateRec := ⟨1, 1, 2, some "db down", 2⟩

/-- C1 failing input, second append: status Degraded, backdated to time 1. -/
def cu2 : UpdateRec := ⟨2, 1, 1, some "backdated", 1⟩

/-- C5 counterexample input: the first appended update carries an empty
message. -/
def cv1 : UpdateRec := ⟨1, 1, 1, some "", 1⟩

/-- C5 counterexample input: the second appended update has a real message. -/
def cv2 : UpdateRec := ⟨2, 1, 1, some "fixed", 2⟩

/-- C2 failing input (spec §8): service `db` at Degraded, its only linked
event `E1` also at Degraded. -/
def w8 : World :=
  { services := [⟨1, 1, 0⟩], events := [⟨10, 1, 0⟩], links := [(1, 10)] }

/-- A world for the C6 witness: one None-status service, one unlinked
Unavailable event. -/
def w6 : World :=
  { services := [⟨1, 0, 0⟩], events := [⟨10, 2, 5⟩], links := [] }

/-! ### Helper lemmas -/

theorem appendUpdate_fst (ev : EventState) (log : List UpdateRec)
    (u : UpdateRec) : (appendUpdate ev log u).1 = applyU ev u := by
  unfold appendUpdate handle_update_save applyU
  by_cases hd : truthy ev.description = true <;>
    by_cases hp : (ev.peak_status == 0 || decide (ev.peak_status < u.status)) = true <;>
      simp [hd, hp]

theorem runAppends_fst (ev : EventState) (log us : List UpdateRec) :
    (runAppends (ev, log) us).1 = us.foldl applyU ev := by
  induction us generalizing ev log with
  | nil => rfl
  | cons u us ih =>
    simp only [runAppends, List.foldl_cons] at *
    rw [show appendUpdate ev log u = (applyU ev u, log ++ [u]) from ?_]
    · exact ih (applyU ev u) (log ++ [u])
    · unfold appendUpdate at *
      exact Prod.ext (appendUpdate_fst ev log u) rfl

theorem applyU_peak (ev : EventState) (u : UpdateRec)
    (hu : 0 ≤ u.status) :
    (applyU ev u).peak_status = max ev.peak_status u.status := by
  unfold applyU
  by_cases h0 : ev.peak_status = 0
  · simp [h0, max_eq_right hu]
  · by_cases hlt : ev.peak_status < u.status
    · simp [h0, hlt, max_eq_right (le_of_lt hlt)]
    · simp [h0, hlt, max_eq_left (not_lt.mp hlt)]

theorem foldl_applyU_peak (us : List UpdateRec) :
    ∀ ev : EventState, (∀ u ∈ us, 0 ≤ u.status) →
      (us.foldl applyU ev).peak_status =
        (us.map (fun u => u.status)).foldl max ev.peak_status := by
  induction us with
  | nil => intro ev _; rfl
  | cons u us ih =>
    intro ev hall
    simp only [List.foldl_cons, List.map_cons]
    rw [ih (applyU ev u) (fun v hv => hall v (List.mem_cons_of_mem u hv)),
        applyU_peak ev u (hall u (List.mem_cons_self u us))]

theorem le_foldl_max (l : List Int) : ∀ b : Int, b ≤ l.foldl max b := by
  induction l with
  | nil => intro b; exact le_refl b
  | cons x l ih => intro b; exact le_trans (le_max_left b x) (ih (max b x))

/-- C3: across any serial sequence of appends to a fresh event, with every
appended status in the enumerated severity domain {0,1,2}, `peak_status`
equals the maximum status ever appended, and appending one more update never
decreases it. -/
theorem c3_peak_status (epk now : Nat) (us : List UpdateRec)
    (h : ∀ u ∈ us, 0 ≤ u.status ∧ u.status ≤ 2) :
    ((runAppends (newEvent epk now, []) us).1).peak_status = maxStatuses us ∧
    ∀ u : UpdateRec, 0 ≤ u.status → u.status ≤ 2 →
      ((runAppends (newEvent epk now, []) us).1).peak_status ≤
        ((runAppends (newEvent epk now, []) (us ++ [u])).1).peak_status := by
  have hval : ∀ u ∈ us, 0 ≤ u.status := fun u hu => (h u hu).1
  constructor
  · rw [runAppends_fst]
    exact foldl_applyU_peak us (newEvent epk now) hval
  · intro u hu0 _
    rw [runAppends_fst, runAppends_fst,
        foldl_applyU_peak us (newEvent epk now) hval,
        foldl_applyU_peak (us ++ [u]) (newEvent epk now) ?_]
    · simp only [List.map_append, List.foldl_append, List.map_cons,
        List.map_nil, List.foldl_cons, List.foldl_nil]
      exact le_max_left _ _
    · intro v hv
      rcases List.mem_append.mp hv with hv | hv
      · exact hval v hv
      · rcases List.mem_singleton.mp hv with rfl; exact hu0

/-- Witness for C3 at a concrete two-append sequence. -/
theorem c3_peak_status_witness :
    (∀ u ∈ [cu1, cu2], 0 ≤ u.status ∧ u.status ≤ 2) ∧
    ((runAppends (newEvent 1 0, []) [cu1, cu2]).1).peak_status =
      maxStatuses [cu1, cu2] :=
  ⟨by decide, (c3_peak_status 1 0 [cu1, cu2] (by decide)).1⟩

theorem applyU_description (ev : EventState) (u : UpdateRec) :
    (applyU ev u).description =
      if truthy ev.description then ev.description else u.message := rfl

theorem foldl_applyU_description (us : List UpdateRec) :
    ∀ ev : EventState, truthy ev.description = true →
      (us.foldl applyU ev).description = ev.description := by
  induction us with
  | nil => intro ev _; rfl
  | cons u us ih =>
    intro ev hev
    simp only [List.foldl_cons]
    have h1 : (applyU ev u).description = ev.description := by
      rw [applyU_description, if_pos hev]
    rw [ih (applyU ev u) (by rw [h1]; exact hev), h1]

/-- C5 fails as stated: the first append writes `description` (to the empty
string), and the second append overwrites it, because the aggregator refills
`description` on every append made while it is still falsy. -/
theorem c5_counterexample :
    ((runAppends (newEvent 1 0, []) [cv1]).1).description = some "" ∧
    ((runAppends (newEvent 1 0, []) [cv1, cv2]).1).description = some "fixed" ∧
    ((runAppends (newEvent 1 0, []) [cv1]).1).description ≠
      ((runAppends (newEvent 1 0, []) [cv1, cv2]).1).description :=
  ⟨rfl, rfl, by decide⟩

/-- C5 amended: if the first appended update's message is non-empty, the
description is set to it by that first append and no later append changes
it; in general an append never overwrites a non-empty (truthy) description. -/
theorem c5_description_sticky (epk now : Nat) (u : UpdateRec)
    (us : List UpdateRec) (hu : truthy u.message = true) :
    ((runAppends (newEvent epk now, []) (u :: us)).1).description = u.message ∧
    ∀ (ev : EventState) (log : List UpdateRec) (v : UpdateRec),
      truthy ev.description = true →
      ((appendUpdate ev log v).1).description = ev.description := by
  constructor
  · rw [runAppends_fst]
    simp only [List.foldl_cons]
    have h1 : (applyU (newEvent epk now) u).description = u.message := rfl
    rw [foldl_applyU_description us _ (by rw [h1]; exact hu), h1]
  · intro ev log v hev
    rw [appendUpdate_fst, applyU_description, if_pos hev]

/-- Witness for C5's amended theorem at a concrete input. -/
theorem c5_description_sticky_witness :
    truthy cv2.message = true ∧
    ((runAppends (newEvent 1 0, []) (cv2 :: [cv1])).1).description =
      cv2.message :=
  ⟨rfl, (c5_description_sticky 1 0 cv2 [cv1] rfl).1⟩

theorem update_from_event_eq (svc : ServiceRec) (linked : List EventRec)
    (ev : EventRec) :
    update_from_event svc linked ev =
      { pk := svc.pk
        status :=
          if ev.status > svc.status then ev.status
          else if ev.status < svc.status then
            if otherLinkedAt linked ev.pk svc.status then svc.status
            else ev.status
          else svc.status
        date_updated :=
          if ev.date_updated > svc.date_updated then ev.date_updated
          else svc.date_updated } := by
  unfold update_from_event
  by_cases hA : ev.date_updated > svc.date_updated <;>
    by_cases hB : ev.status > svc.status <;>
      by_cases hC : ev.status < svc.status <;>
        by_cases hD : otherLinkedAt linked ev.pk svc.status = true <;>
          simp [hA, hB, hC, hD]

theorem update_from_event_pk (svc : ServiceRec) (linked : List EventRec)
    (ev : EventRec) : (update_from_event svc linked ev).pk = svc.pk := by
  rw [update_from_event_eq]

/-- C7: the Service Aggregator never decreases `date_updated`, and raises it
to the triggering event's timestamp exactly when that is strictly newer. -/
theorem c7_date_updated_monotone (svc : ServiceRec) (linked : List EventRec)
    (ev : EventRec) :
    svc.date_updated ≤ (update_from_event svc linked ev).date_updated ∧
    (update_from_event svc linked ev).date_updated =
      (if ev.date_updated > svc.date_updated then ev.date_updated
       else svc.date_updated) := by
  rw [update_from_event_eq]
  refine ⟨?_, rfl⟩
  dsimp only
  split <;> omega

/-- C4: on the decrease path (`event.status < service.status`) the status is
lowered to the event's exactly when no other linked event still carries the
service's current status; otherwise it is left unchanged. -/
theorem c4_lower_guard (svc : ServiceRec) (linked : List EventRec)
    (ev : EventRec) (h : ev.status < svc.status) :
    ((update_from_event svc linked ev).status = ev.status ↔
      otherLinkedAt linked ev.pk svc.status = false) ∧
    (otherLinkedAt linked ev.pk svc.status = true →
      (update_from_event svc linked ev).status = svc.status) := by
  rw [update_from_event_eq]
  have hB : ¬ ev.status > svc.status := by omega
  by_cases hD : otherLinkedAt linked ev.pk svc.status = true
  · simp [hB, h, hD]
    omega
  · have hD' : otherLinkedAt linked ev.pk svc.status = false :=
      Bool.eq_false_iff.mpr hD
    simp [hB, h, hD']

/-- Witness for C4: a Degraded event triggers against an Unavailable service
that another linked event still justifies. -/
theorem c4_lower_guard_witness :
    ((1 : Int) < 2) ∧
    (((update_from_event ⟨1, 2, 0⟩ [⟨10, 2, 0⟩] ⟨11, 1, 0⟩).status = 1 ↔
       otherLinkedAt [⟨10, 2, 0⟩] 11 2 = false) ∧
     (otherLinkedAt [⟨10, 2, 0⟩] 11 2 = true →
       (update_from_event ⟨1, 2, 0⟩ [⟨10, 2, 0⟩] ⟨11, 1, 0⟩).status = 2)) :=
  ⟨by decide, c4_lower_guard ⟨1, 2, 0⟩ [⟨10, 2, 0⟩] ⟨11, 1, 0⟩ (by decide)⟩

theorem m2m_not_post (w : World) (action : String) (forward : Bool)
    (instPk : Nat) (pk_set : Option (List Nat))
    (h : startswith action "post_" = false) :
    handle_event_m2m_save w action forward instPk pk_set = w := by
  unfold handle_event_m2m_save
  simp [h]

theorem m2m_empty_pkset (w : World) (action : String) (forward : Bool)
    (instPk : Nat) (pk_set : Option (List Nat))
    (h : (pk_set.getD []).isEmpty = true) :
    handle_event_m2m_save w action forward instPk pk_set = w := by
  unfold handle_event_m2m_save
  split
  · rfl
  · simp [h]

/-- C10: an association-change notification in a `pre_` phase, or whose
`pk_set` is absent (`None`, as on `post_clear`) or empty, triggers no
re-aggregation: the world — in particular every service's `status` and
`date_updated` — is unchanged. -/
theorem c10_no_reaggregation (w : World) (action : String) (forward : Bool)
    (instPk : Nat) (pk_set : Option (List Nat))
    (h : action = "pre_add" ∨ action = "pre_remove" ∨ action = "pre_clear" ∨
         pk_set = none ∨ pk_set = some []) :
    handle_event_m2m_save w action forward instPk pk_set = w := by
  rcases h with h | h | h | h | h
  · subst h; exact m2m_not_post _ _ _ _ _ rfl
  · subst h; exact m2m_not_post _ _ _ _ _ rfl
  · subst h; exact m2m_not_post _ _ _ _ _ rfl
  · subst h; exact m2m_empty_pkset _ _ _ _ _ rfl
  · subst h; exact m2m_empty_pkset _ _ _ _ _ rfl

/-- Witness for C10: a `pre_remove` notification on the §8 world is a no-op,
and so is a `post_clear` one (absent `pk_set`). -/
theorem c10_no_reaggregation_witness :
    handle_event_m2m_save w8 "pre_remove" true 10 (some [1]) = w8 ∧
    handle_event_m2m_save w8 "post_clear" true 10 none = w8 :=
  ⟨c10_no_reaggregation w8 "pre_remove" true 10 (some [1])
      (Or.inr (Or.inl rfl)),
   c10_no_reaggregation w8 "post_clear" true 10 none
      (Or.inr (Or.inr (Or.inr (Or.inl rfl))))⟩

theorem find?_map_of_pred (p : ServiceRec → Bool) (g : ServiceRec → ServiceRec)
    (hg : ∀ a, p (g a) = p a) :
    ∀ l : List ServiceRec, (l.map g).find? p = (l.find? p).map g := by
  intro l
  induction l with
  | nil => rfl
  | cons a l ih =>
    cases hp : p a
    · have h1 : ¬ p (g a) = true := by simp [hg, hp]
      have h2 : ¬ p a = true := by simp [hp]
      rw [List.map_cons, List.find?_cons_of_neg _ h1,
          List.find?_cons_of_neg _ h2, ih]
    · have h1 : p (g a) = true := by rw [hg]; exact hp
      rw [List.map_cons, List.find?_cons_of_pos _ h1,
          List.find?_cons_of_pos _ hp]
      rfl

theorem findService_applyAggregate (w : World) (spk : Nat) (ev : EventRec) :
    findService (applyAggregate w spk ev) spk =
      (findService w spk).map (fun s =>
        if s.pk == spk then update_from_event s (linkedEvents w spk) ev
        else s) := by
  unfold findService applyAggregate
  exact find?_map_of_pred _ _
    (fun a => by
      by_cases hpk : (a.pk == spk) = true <;>
        simp [hpk, update_from_event_pk]) _

/-- C6: linking an event whose status is strictly above the service's current
status immediately raises the service's status to the event's. -/
theorem c6_link_raises (w : World) (spk epk : Nat) (s : ServiceRec)
    (e : EventRec) (hs : findService w spk = some s)
    (he : findEvent w epk = some e) (hgt : e.status > s.status) :
    (findService (linkEvent w spk epk) spk).map (fun r => r.status) =
      some e.status := by
  unfold linkEvent
  rw [m2m_not_post w "pre_add" true epk (some [spk]) rfl]
  have hpost :
      handle_event_m2m_save { w with links := w.links ++ [(spk, epk)] }
        "post_add" true epk (some [spk]) =
      applyAggregate { w with links := w.links ++ [(spk, epk)] } spk e := by
    have he' : findEvent { w with links := w.links ++ [(spk, epk)] } epk =
        some e := he
    unfold handle_event_m2m_save
    simp [he', startswith]
  rw [hpost, findService_applyAggregate]
  have hs' : findService { w with links := w.links ++ [(spk, epk)] } spk =
      some s := hs
  rw [hs']
  have hs2 : List.find? (fun r : ServiceRec => r.pk == spk) w.services =
      some s := hs
  have hpk : s.pk = spk := by simpa using List.find?_some hs2
  simp [hpk, update_from_event_eq, hgt]

/-- Witness for C6: linking the Unavailable event 10 to the None-status
service 1 in `w6` raises the service to Unavailable. -/
theorem c6_link_raises_witness :
    findService w6 1 = some ⟨1, 0, 0⟩ ∧ findEvent w6 10 = some ⟨10, 2, 5⟩ ∧
    ((2 : Int) > 0) ∧
    (findService (linkEvent w6 1 10) 1).map (fun r => r.status) =
      some (2 : Int) :=
  ⟨rfl, rfl, by decide,
   c6_link_raises w6 1 10 ⟨1, 0, 0⟩ ⟨10, 2, 5⟩ rfl rfl (by decide)⟩

/-- C1 divergence, evaluated: appending `cu1` (Unavailable, created at time
2) and then the backdated `cu2` (Degraded, created at time 1) leaves the
event's status at `cu2`'s — every freshly created update is treated as
latest — although `cu1` has the greatest creation timestamp and a different
status, and `cu2`'s message also overwrites the event's. -/
theorem c1_backdated_append_overwrites :
    ((runAppends (newEvent 1 0, []) [cu1, cu2]).1).status = cu2.status ∧
    ((runAppends (newEvent 1 0, []) [cu1, cu2]).1).message = cu2.message ∧
    cu1.date_created > cu2.date_created ∧ cu2.status ≠ cu1.status :=
  ⟨rfl, rfl, by decide, by decide⟩

/-- C2 divergence, evaluated (the spec §8 scenario): in `w8` the Degraded
service 1 is justified only by the linked Degraded event 10; unlinking that
event removes the last link yet leaves the service's status at Degraded (1),
because `update_from_event` does nothing when `event.status ==
service.status`, instead of the claimed drop to None (0). -/
theorem c2_unlink_leaves_stale_status :
    linkedEvents (unlinkEvent w8 1 10) 1 = [] ∧
    (findService (unlinkEvent w8 1 10) 1).map (fun r => r.status) =
      some 1 ∧ (1 : Int) ≠ 0 :=
  ⟨rfl, rfl, by decide⟩

/-- C8: the derived-message rule — an explicit (non-empty) message wins;
otherwise the canned string for None (0), Degraded (1) or Unavailable (2). -/
theorem c8_derived_message (message : Option String) (status : Int) :
    (∀ m, message = some m → m ≠ "" → get_message message status = m) ∧
    ((message = none ∨ message = some "") → status = 0 →
      get_message message status = "Service is operating as expected.") ∧
    ((message = none ∨ message = some "") → status = 1 →
      get_message message status =
        "Experiencing some issues. Services mostly operational.") ∧
    ((message = none ∨ message = some "") → status = 2 →
      get_message message status = "Service is unavailable.") := by
  refine ⟨?_, ?_, ?_, ?_⟩
  · rintro m rfl hm
    simp [get_message, truthy, hm]
  all_goals rintro (rfl | rfl) rfl <;> simp [get_message, truthy]

/-- Witness for C8 at concrete inputs. -/
theorem c8_derived_message_witness :
    get_message (some "db down") 2 = "db down" ∧
    get_message none 2 = "Service is unavailable." :=
  ⟨(c8_derived_message (some "db down") 2).1 "db down" rfl (by decide),
   (c8_derived_message none 2).2.2.2 (Or.inl rfl) rfl⟩

/-- C9: with no truthy message and a status outside {0,1,2}, `get_message`
totalises to the empty string. -/
theorem c9_get_message_total (message : Option String) (status : Int)
    (hm : truthy message = false) (h0 : status ≠ 0) (h1 : status ≠ 1)
    (h2 : status ≠ 2) : get_message message status = "" := by
  simp [get_message, hm, h0, h1, h2]

/-- Witness for C9: absent message and out-of-domain statuses 5 and -1. -/
theorem c9_get_message_total_witness :
    get_message none 5 = "" ∧ get_message (some "") (-1) = "" :=
  ⟨c9_get_message_total none 5 rfl (by decide) (by decide) (by decide),
   c9_get_message_total (some "") (-1) rfl (by decide) (by decide)
     (by decide)⟩

end Overseer
